import Mathlib

/-!
Verification of the team-balancing, captain-draft, lobby-roster and betting
logic of the DotA2 inhouse bot (files `FeederBot.py`, `ArmanBotty.py`,
`betting_manager.py`).

Players are modelled as the `(user_id, display_name, mmr)` tuples the bot
stores in `lobby_players`; Python's exact `/` division on integer sums is
modelled by `ℚ`; Python's stable `list.sort` / `sorted` is modelled by
`List.insertionSort` (a stable sort agrees with any other stable sort).
-/

open scoped List

set_option allowUnsafeReducibility true in
attribute [semireducible] Rat.add Rat.mul Rat.sub Rat.inv

namespace Inhouse

/-- A participant tuple `(user_id, name, mmr)` as stored in `lobby_players`. -/
structure Player where
  id : Nat
  name : String
  mmr : Int
deriving DecidableEq, Repr

/-- Helper to build a concrete participant. -/
def mkP (i : Nat) (m : Int) : Player :=
  { id := i, name := "", mmr := m }

/-- Model of `itertools.combinations(l, k)`: all `k`-element subsequences of
`l`, in the lexicographic-by-position order that `itertools` produces. -/
def combinations {α : Type} : Nat → List α → List (List α)
  | 0, _ => [[]]
  | _ + 1, [] => []
  | k + 1, x :: xs => ((combinations k xs).map (fun c => x :: c)) ++ combinations (k + 1) xs

/-- Average rating of a 5-player team, `sum(p[2] for p in team) / 5` with
Python's exact division. -/
def avgOf5 (team : List Player) : ℚ :=
  ((team.map Player.mmr).sum : ℚ) / 5

/-- Python's `abs` on an exact rational value. -/
def ratAbs (x : ℚ) : ℚ :=
  if x < 0 then -x else x

/-- Python's `abs` on an integer. -/
def intAbs (x : Int) : Int :=
  if x < 0 then -x else x

/-- Fairness of a split, `abs(avg1 - avg2)`. -/
def teamDiff (t1 t2 : List Player) : ℚ :=
  ratAbs (avgOf5 t1 - avgOf5 t2)

/-- Comparison key used by `team_pairs.sort(key=lambda x: x[0])`. -/
def diffLE (a b : ℚ × List Player × List Player) : Prop :=
  a.1 ≤ b.1

instance : DecidableRel diffLE := fun a b => inferInstanceAs (Decidable (a.1 ≤ b.1))

instance : IsTotal (ℚ × List Player × List Player) diffLE :=
  ⟨fun a b => le_total a.1 b.1⟩

instance : IsTrans (ℚ × List Player × List Player) diffLE :=
  ⟨fun _ _ _ hab hbc => le_trans hab hbc⟩

/-- Model of `calculate_balanced_teams` (FeederBot.py lines 467-477, identical in
ArmanBotty.py lines 128-138): enumerate every 5-element combination as
`team1`, take the remaining players as `team2`, key each split by the
absolute difference of team rating averages, stable-sort ascending by that
key and return the splits. -/
def calculate_balanced_teams (players : List Player) : List (List Player × List Player) :=
  let team_pairs := (combinations 5 players).map (fun team1 =>
    let team2 := players.filter (fun p => p ∉ team1)
    (teamDiff team1 team2, team1, team2))
  (team_pairs.insertionSort diffLE).map (fun x => x.2)

/-- Comparison key `lambda p: p[2]` used by `sorted(players, key=...)`. -/
def mmrLE (a b : Player) : Prop :=
  a.mmr ≤ b.mmr

instance : DecidableRel mmrLE := fun a b => inferInstanceAs (Decidable (a.mmr ≤ b.mmr))

instance : IsTotal Player mmrLE :=
  ⟨fun a b => le_total a.mmr b.mmr⟩

instance : IsTrans Player mmrLE :=
  ⟨fun _ _ _ hab hbc => le_trans hab hbc⟩

/-- One captain-draft alternative: `((captain1, captain2), pool, diff)`. -/
abbrev CaptainAlt := (Player × Player) × List Player × Int

/-- Comparison key used by `pairs.sort(key=lambda x: x[2])`. -/
def closeLE (a b : CaptainAlt) : Prop :=
  a.2.2 ≤ b.2.2

instance : DecidableRel closeLE := fun a b => inferInstanceAs (Decidable (a.2.2 ≤ b.2.2))

instance : IsTotal CaptainAlt closeLE :=
  ⟨fun a b => le_total a.2.2 b.2.2⟩

instance : IsTrans CaptainAlt closeLE :=
  ⟨fun _ _ _ hab hbc => le_trans hab hbc⟩

/-- The nested `for i / for j in range(i+1, n)` loop of
`get_all_captain_pairs`: every ordered-by-position pair `(p1, p2)` with `p1`
before `p2`, with the pool filtered from the full sorted list. -/
def pairsAux (full : List Player) : List Player → List CaptainAlt
  | [] => []
  | x :: xs =>
      (xs.map (fun y => ((x, y), full.filter (fun p => p ∉ [x, y]), intAbs (x.mmr - y.mmr)))) ++
        pairsAux full xs

/-- Model of `get_all_captain_pairs` (FeederBot.py lines 451-463): sort the roster by
MMR, enumerate the 45 captain pairs with their 8-player pool and MMR
difference, and stable-sort ascending by the difference. -/
def get_all_captain_pairs (players : List Player) : List CaptainAlt :=
  let sorted_players := players.insertionSort mmrLE
  let pairs := pairsAux sorted_players sorted_players
  pairs.insertionSort closeLE

/-! ### Reaction-driven lobby state machines -/

/-- Constant `MAX_ROLLS = 5` (regular mode). -/
def MAX_ROLLS : Nat := 5

/-- Constant `IMMORTAL_MAX_ROLLS = 3` (captain-draft mode). -/
def IMMORTAL_MAX_ROLLS : Nat := 3

/-- The per-guild `inhouse_mode` value. -/
inductive Mode where
  | regular
  | immortal
deriving DecidableEq, Repr

/-- Model of `captain_draft_state[guild_id]`, a dict with keys `pairs` and `index`. -/
structure DraftState where
  pairs : List CaptainAlt
  index : Nat
deriving DecidableEq, Repr

/-- The embed rendered back to the user by the reaction handler. -/
inductive Shown where
  | noEmbed
  | teams (alt : List Player × List Player) (rollNumber : Nat)
  | draftPair (captains : Player × Player) (pool : List Player) (index : Nat)
deriving DecidableEq, Repr

/-- Removal of the first tuple whose `user_id` matches, as the
`for i, (uid, _, _) in enumerate(...): del ...; break` loop does. -/
def removeFirstById (uid : Nat) : List Player → List Player
  | [] => []
  | x :: xs => if x.id = uid then xs else x :: removeFirstById uid xs

namespace Feeder

/-- The per-guild mutable state of FeederBot.py that the reaction handler
touches: `inhouse_mode`, `lobby_players`, `roll_count`, `team_rolls`,
`original_teams` (regular mode) and `captain_draft_state`. -/
structure FState where
  mode : Mode
  lobby : List Player
  rollCount : Nat
  teamRolls : List (List Player × List Player)
  originalTeams : Option (List Player × List Player)
  draft : Option DraftState
deriving DecidableEq, Repr

/-- FeederBot's 👍 branch: refuse when the lobby already has 10 players,
skip members already present, otherwise append. -/
def thumbsUp (s : FState) (u : Player) : FState :=
  if s.lobby.length ≥ 10 then s
  else if s.lobby.any (fun q => q.id = u.id) then s
  else { s with lobby := s.lobby ++ [u] }

/-- FeederBot's 👎 branch: delete the first matching tuple. -/
def thumbsDown (s : FState) (uid : Nat) : FState :=
  { s with lobby := removeFirstById uid s.lobby }

/-- FeederBot's `!add` command (`add_to_lobby`, lines 620-647): reject an
empty mention list, refuse when the lobby already holds 10 players, then
append every not-yet-present member — the fullness check is executed once,
before the loop. -/
def add_to_lobby (s : FState) (members : List Player) : FState :=
  if members = [] then s
  else if s.lobby.length ≥ 10 then s
  else
    let newLobby := members.foldl
      (fun acc m => if acc.any (fun q => q.id = m.id) then acc else acc ++ [m]) s.lobby
    { s with lobby := newLobby }

/-- FeederBot's `!reset` command: clear the lobby list. -/
def reset (s : FState) : FState :=
  { s with lobby := [] }

/-- FeederBot's 🚀 branch (lines 1070-1085): when the lobby holds exactly 10
players, compute the ranked alternatives for the current mode, cache them,
set the cursor to the top alternative and render it. (The immortal branch
also writes the top pair into `original_teams`; nothing ever reads that
value in immortal mode, so the model leaves the field unchanged there.) -/
def rocket (s : FState) : FState × Shown :=
  if s.lobby.length = 10 then
    match s.mode with
    | Mode.regular =>
        let rolls := calculate_balanced_teams s.lobby
        ({ s with teamRolls := rolls, originalTeams := rolls.head?, rollCount := 1 },
          match rolls.head? with
          | some t => Shown.teams t 1
          | none => Shown.noEmbed)
    | Mode.immortal =>
        let allPairs := get_all_captain_pairs s.lobby
        ({ s with draft := some ⟨allPairs, 0⟩ },
          match allPairs.head? with
          | some alt => Shown.draftPair alt.1 alt.2.1 0
          | none => Shown.noEmbed)
  else (s, Shown.noEmbed)

/-- FeederBot's ♻️ branch (lines 1092-1124): in regular mode it updates
`roll_count`, recomputes `team_rolls` from the current lobby and always
renders `team_rolls[0]`; in immortal mode it advances the cached draft index
modulo `IMMORTAL_MAX_ROLLS + 1` and renders the cached pair at that index
(regenerating the cache only when no draft state exists at all; the
`original_teams` write of the Python code is dead in this mode and not
modelled). -/
def recycle (s : FState) : FState × Shown :=
  if s.lobby.length = 10 then
    match s.mode with
    | Mode.regular =>
        let rc := if s.rollCount ≥ MAX_ROLLS then 1 else s.rollCount + 1
        let rolls := calculate_balanced_teams s.lobby
        ({ s with rollCount := rc, teamRolls := rolls, originalTeams := rolls.head? },
          match rolls.head? with
          | some t => Shown.teams t rc
          | none => Shown.noEmbed)
    | Mode.immortal =>
        let d0 := match s.draft with
          | none => (⟨get_all_captain_pairs s.lobby, 0⟩ : DraftState)
          | some d => d
        let newIndex := (d0.index + 1) % (IMMORTAL_MAX_ROLLS + 1)
        ({ s with draft := some ⟨d0.pairs, newIndex⟩ },
          match d0.pairs.get? newIndex with
          | some alt => Shown.draftPair alt.1 alt.2.1 newIndex
          | none => Shown.noEmbed)
  else (s, Shown.noEmbed)

end Feeder

namespace Arman

/-- The global mutable state of ArmanBotty.py touched by its handlers:
`lobby_players`, `roll_count`, `team_rolls`, `original_teams`. -/
structure AState where
  lobby : List Player
  rollCount : Nat
  teamRolls : List (List Player × List Player)
  originalTeams : Option (List Player × List Player)
deriving DecidableEq, Repr

/-- ArmanBotty's 👍 branch: append when not present — there is no lobby-size
check at all. -/
def thumbsUp (s : AState) (u : Player) : AState :=
  if s.lobby.any (fun q => q.id = u.id) then s
  else { s with lobby := s.lobby ++ [u] }

/-- ArmanBotty's `!add` command (`add_to_lobby`, lines 202-216): append every
not-yet-present member; no size check. -/
def add_to_lobby (s : AState) (members : List Player) : AState :=
  let newLobby := members.foldl
    (fun acc m => if acc.any (fun q => q.id = m.id) then acc else acc ++ [m]) s.lobby
  { s with lobby := newLobby }

/-- ArmanBotty's 🚀 branch (lines 394-404). -/
def rocket (s : AState) : AState × Shown :=
  if s.lobby.length = 10 then
    let rolls := calculate_balanced_teams s.lobby
    ({ s with teamRolls := rolls, originalTeams := rolls.head?, rollCount := 1 },
      match rolls.head? with
      | some t => Shown.teams t 1
      | none => Shown.noEmbed)
  else (s, Shown.noEmbed)

/-- ArmanBotty's ♻️ branch (lines 406-419): no-op when `team_rolls` is
empty; when `roll_count >= MAX_ROLLS` reset the counter to 1 and re-render
`original_teams`; otherwise increment the counter and render
`team_rolls[roll_count - 1]`. -/
def recycle (s : AState) : AState × Shown :=
  if s.lobby.length = 10 then
    if s.teamRolls = [] then (s, Shown.noEmbed)
    else if s.rollCount ≥ MAX_ROLLS then
      ({ s with rollCount := 1 },
        match s.originalTeams with
        | some t => Shown.teams t 1
        | none => Shown.noEmbed)
    else
      let rc := s.rollCount + 1
      ({ s with rollCount := rc },
        match s.teamRolls.get? (rc - 1) with
        | some t => Shown.teams t rc
        | none => Shown.noEmbed)
  else (s, Shown.noEmbed)

end Arman

/-! ### Iterated immortal rerolls -/

/-- The state after `k` successive ♻️ rerolls. -/
def Feeder.recycleIter (s : Feeder.FState) : Nat → Feeder.FState
  | 0 => s
  | k + 1 => (Feeder.recycle (Feeder.recycleIter s k)).1


/-! ### The spec's example roster of five 1000-rated and five 5000-rated
players -/

/-- The roster with ratings `[1000×5, 5000×5]` from the spec's example. -/
def tenSplitRoster : List Player :=
  [mkP 0 1000, mkP 1 1000, mkP 2 1000, mkP 3 1000, mkP 4 1000,
   mkP 5 5000, mkP 6 5000, mkP 7 5000, mkP 8 5000, mkP 9 5000]

/-- The rating-homogeneous split of `tenSplitRoster`. -/
def homogSplit : List Player × List Player :=
  ([mkP 0 1000, mkP 1 1000, mkP 2 1000, mkP 3 1000, mkP 4 1000],
   [mkP 5 5000, mkP 6 5000, mkP 7 5000, mkP 8 5000, mkP 9 5000])

/-- The top-ranked split computed by `calculate_balanced_teams` on
`tenSplitRoster`: three 1000s and two 5000s against the rest. -/
def splitA : List Player × List Player :=
  ([mkP 0 1000, mkP 1 1000, mkP 2 1000, mkP 5 5000, mkP 6 5000],
   [mkP 3 1000, mkP 4 1000, mkP 7 5000, mkP 8 5000, mkP 9 5000])

/-- The second-ranked split computed by `calculate_balanced_teams` on
`tenSplitRoster`. -/
def splitB : List Player × List Player :=
  ([mkP 0 1000, mkP 1 1000, mkP 2 1000, mkP 5 5000, mkP 7 5000],
   [mkP 3 1000, mkP 4 1000, mkP 6 5000, mkP 8 5000, mkP 9 5000])

/-- The 10-player roster used to seed the captain-draft cache. -/
def draftRosterA : List Player :=
  [mkP 0 100, mkP 1 200, mkP 2 300, mkP 3 400, mkP 4 500,
   mkP 5 600, mkP 6 700, mkP 7 800, mkP 8 900, mkP 9 1000]

/-- The stale alternative rendered after the roster mutation: captains from
the old roster with the departed player 9 still in the pool. -/
def staleAlt : CaptainAlt :=
  ((mkP 1 200, mkP 2 300),
   [mkP 0 100, mkP 3 400, mkP 4 500, mkP 5 600, mkP 6 700, mkP 7 800, mkP 8 900, mkP 9 1000],
   100)

/-! ### The betting commands and `get_balance`'s arity -/

namespace Betting

/-- A Python runtime error. -/
inductive PyErr where
  | typeError
deriving DecidableEq, Repr

/-- Model of `get_balance` (betting_manager.py lines 8-10): read the user's wallet
document, defaulting to 1000. The wallet store is a map from user id to the
stored balance. -/
def get_balance (wallets : Nat → Option Int) (user_id : Nat) : Int :=
  match wallets user_id with
  | some b => b
  | none => 1000

/-- A call to `get_balance` through Python's calling convention: the
function is defined with exactly one positional parameter (`user_id`), so a
call raises `TypeError` unless exactly one positional argument is given. -/
def callGetBalance (wallets : Nat → Option Int) : List Nat → Except PyErr Int
  | [user_id] => Except.ok (get_balance wallets user_id)
  | _ => Except.error PyErr.typeError

/-- Model of `update_balance` (betting_manager.py lines 12-14). -/
def update_balance (wallets : Nat → Option Int) (user_id : Nat) (amount : Int) :
    Nat → Option Int :=
  fun u => if u = user_id then some (get_balance wallets user_id + amount) else wallets u

/-- A stored bet: team and amount. -/
structure BetEntry where
  team : String
  amount : Int
deriving DecidableEq, Repr

/-- Model of `place_bet` (betting_manager.py lines 16-40): refund any previous bet,
check the balance, deduct the new amount and store the entry. Returns the
success flag with the updated wallet and bet stores. -/
def place_bet (wallets : Nat → Option Int) (bets : Nat → Option BetEntry)
    (user_id : Nat) (team : String) (amount : Int) :
    Bool × (Nat → Option Int) × (Nat → Option BetEntry) :=
  let wallets1 := match bets user_id with
    | some prev => update_balance wallets user_id prev.amount
    | none => wallets
  if get_balance wallets1 user_id < amount then (false, wallets1, bets)
  else
    (true, update_balance wallets1 user_id (-amount),
      fun u => if u = user_id then some ⟨team, amount⟩ else bets u)

/-- The visible outcome of the `!bet` command. -/
inductive BetOutcome where
  | invalidTeam
  | invalidAmount
  | teamChangeRefused
  | notIncreaseRefused
  | insufficientBalance
  | placed
  | raised (e : PyErr)
deriving DecidableEq, Repr

/-- The `!bet` command (FeederBot.py lines 551-599): validate the team name
and amount, run the existing-bet checks, then call
`get_balance(guild_id, ctx.author.id)` — with two arguments — before and
after `place_bet`. An error raised by a call aborts the command at that
point. -/
def bet_command (wallets : Nat → Option Int) (bets : Nat → Option BetEntry)
    (guild_id user_id : Nat) (amount : Int) (team : String) :
    BetOutcome × (Nat → Option Int) × (Nat → Option BetEntry) :=
  let teamL := team.toLower
  if teamL ≠ "radiant" ∧ teamL ≠ "dire" then (BetOutcome.invalidTeam, wallets, bets)
  else if amount ≤ 0 then (BetOutcome.invalidAmount, wallets, bets)
  else
    let check : Option BetOutcome := match bets user_id with
      | some prev =>
          if teamL ≠ prev.team then some BetOutcome.teamChangeRefused
          else if amount ≤ prev.amount then some BetOutcome.notIncreaseRefused
          else none
      | none => none
    match check with
    | some out => (out, wallets, bets)
    | none =>
        match callGetBalance wallets [guild_id, user_id] with
        | Except.error e => (BetOutcome.raised e, wallets, bets)
        | Except.ok _ =>
            match place_bet wallets bets user_id teamL amount with
            | (success, wallets2, bets2) =>
                match callGetBalance wallets2 [guild_id, user_id] with
                | Except.error e => (BetOutcome.raised e, wallets2, bets2)
                | Except.ok _ =>
                    if success then (BetOutcome.placed, wallets2, bets2)
                    else (BetOutcome.insufficientBalance, wallets2, bets2)

/-- The `!balance` command (FeederBot.py lines 610-616): it calls
`get_balance(guild_id, user_id)` — two arguments. -/
def balance_command (wallets : Nat → Option Int) (guild_id user_id : Nat) :
    Except PyErr Int :=
  callGetBalance wallets [guild_id, user_id]

end Betting

/-! ### Basic facts about `combinations` -/

theorem length_combinations {α : Type} : ∀ (k : Nat) (l : List α),
    (combinations k l).length = l.length.choose k
  | 0, l => by simp [combinations]
  | k + 1, [] => by simp [combinations]
  | k + 1, x :: xs => by
    simp only [combinations, List.length_append, List.length_map,
      length_combinations k xs, length_combinations (k + 1) xs, List.length_cons]
    rw [Nat.choose_succ_succ]

theorem mem_combinations {α : Type} : ∀ {k : Nat} {l c : List α},
    c ∈ combinations k l → c.length = k ∧ c <+ l
  | 0, l, c, h => by
    simp only [combinations, List.mem_singleton] at h
    subst h
    exact ⟨rfl, List.nil_sublist l⟩
  | k + 1, [], c, h => by simp [combinations] at h
  | k + 1, x :: xs, c, h => by
    simp only [combinations, List.mem_append, List.mem_map] at h
    rcases h with ⟨c0, hc0, rfl⟩ | h
    · obtain ⟨hlen, hsub⟩ := mem_combinations hc0
      exact ⟨by simp [hlen], List.Sublist.cons₂ x hsub⟩
    · obtain ⟨hlen, hsub⟩ := mem_combinations h
      exact ⟨hlen, hsub.cons x⟩

/-- For a duplicate-free list `l` and a subsequence `t` of it, the elements
of `t` followed by the elements of `l` not in `t` are a permutation of `l`.
This is the "two disjoint teams recompose the roster" core fact. -/
theorem sublist_append_filter_perm {α : Type} [DecidableEq α] :
    ∀ {l t : List α}, t <+ l → l.Nodup →
      t ++ l.filter (fun p => p ∉ t) ~ l := by
  intro l t ht
  induction ht with
  | slnil =>
    intro _
    simp
  | @cons t l a ht ih =>
    intro hnd
    have hal : a ∉ l := (List.nodup_cons.mp hnd).1
    have hat : a ∉ t := fun hmem => hal (ht.subset hmem)
    have hfa : (a :: l).filter (fun p => p ∉ t) = a :: l.filter (fun p => p ∉ t) := by
      simp [List.filter_cons, hat]
    rw [hfa]
    calc t ++ a :: l.filter (fun p => p ∉ t)
        ~ a :: (t ++ l.filter (fun p => p ∉ t)) := List.perm_middle
      _ ~ a :: l := (ih (List.nodup_cons.mp hnd).2).cons a
  | @cons₂ t l a ht ih =>
    intro hnd
    have hal : a ∉ l := (List.nodup_cons.mp hnd).1
    have hfa : (a :: l).filter (fun p => p ∉ a :: t) = l.filter (fun p => p ∉ a :: t) := by
      simp [List.filter_cons]
    have hcongr : l.filter (fun p => p ∉ a :: t) = l.filter (fun p => p ∉ t) := by
      apply List.filter_congr
      intro x hx
      have hxa : x ≠ a := fun h => hal (h ▸ hx)
      simp [List.mem_cons, hxa]
    rw [hfa, hcongr]
    exact (ih (List.nodup_cons.mp hnd).2).cons a

/-! ### Shape of the alternatives produced by `calculate_balanced_teams` -/

theorem mem_calculate_balanced_teams {players : List Player}
    {pr : List Player × List Player} (h : pr ∈ calculate_balanced_teams players) :
    ∃ team1, team1 ∈ combinations 5 players ∧
      pr = (team1, players.filter (fun p => p ∉ team1)) := by
  simp only [calculate_balanced_teams, List.mem_map] at h
  obtain ⟨x, hx, rfl⟩ := h
  rw [List.mem_insertionSort] at hx
  simp only [List.mem_map] at hx
  obtain ⟨team1, ht, rfl⟩ := hx
  exact ⟨team1, ht, rfl⟩

theorem length_calculate_balanced_teams (players : List Player) :
    (calculate_balanced_teams players).length = players.length.choose 5 := by
  simp [calculate_balanced_teams, List.length_insertionSort, length_combinations]

/-- C1: for a roster of 10 participants with pairwise-distinct identities,
`calculate_balanced_teams` returns exactly 252 alternatives, and every
alternative is a pair of disjoint 5-element teams whose concatenation is a
permutation of the full roster. -/
theorem balanced_teams_enumeration (players : List Player)
    (h10 : players.length = 10) (hnd : (players.map Player.id).Nodup) :
    (calculate_balanced_teams players).length = 252 ∧
      ∀ pr ∈ calculate_balanced_teams players,
        pr.1.length = 5 ∧ pr.2.length = 5 ∧
          (∀ p ∈ pr.1, p ∉ pr.2) ∧ (∀ p ∈ pr.2, p ∉ pr.1) ∧
          pr.1 ++ pr.2 ~ players := by
  have hndp : players.Nodup := List.Nodup.of_map Player.id hnd
  constructor
  · rw [length_calculate_balanced_teams, h10]
    decide
  · intro pr hpr
    obtain ⟨team1, hmem, rfl⟩ := mem_calculate_balanced_teams hpr
    obtain ⟨hlen1, hsub⟩ := mem_combinations hmem
    have hperm : team1 ++ players.filter (fun p => p ∉ team1) ~ players :=
      sublist_append_filter_perm hsub hndp
    have hlen2 : (players.filter (fun p => p ∉ team1)).length = 5 := by
      have := hperm.length_eq
      simp only [List.length_append, hlen1, h10] at this
      omega
    refine ⟨hlen1, hlen2, ?_, ?_, hperm⟩
    · intro p hp1 hp2
      have := List.of_mem_filter hp2
      simp only [decide_eq_true_eq] at this
      exact this hp1
    · intro p hp2
      have := List.of_mem_filter hp2
      simp only [decide_eq_true_eq] at this
      exact this

/-- Witness: the degenerate roster of ten distinct ids does satisfy the two
hypotheses of the enumeration theorem. -/
theorem balanced_teams_enumeration_witness :
    (calculate_balanced_teams
        [mkP 0 1000, mkP 1 1000, mkP 2 1000, mkP 3 1000, mkP 4 1000,
         mkP 5 5000, mkP 6 5000, mkP 7 5000, mkP 8 5000, mkP 9 5000]).length = 252 :=
  (balanced_teams_enumeration
    [mkP 0 1000, mkP 1 1000, mkP 2 1000, mkP 3 1000, mkP 4 1000,
     mkP 5 5000, mkP 6 5000, mkP 7 5000, mkP 8 5000, mkP 9 5000]
    (by decide) (by decide)).1

/-! ### Sortedness of the ranked alternatives -/

theorem pairwise_head_min {α : Type} {R : α → α → Prop}
    {l : List α} (hp : l.Pairwise R) (hrefl : ∀ a, R a a) :
    ∀ hd, l.head? = some hd → ∀ x ∈ l, R hd x := by
  intro hd hhd x hx
  cases l with
  | nil => simp at hhd
  | cons a tl =>
    simp only [List.head?_cons, Option.some.injEq] at hhd
    subst hhd
    rcases List.mem_cons.mp hx with rfl | hx
    · exact hrefl x
    · exact (List.pairwise_cons.mp hp).1 x hx

theorem fst_eq_teamDiff_of_mem {players : List Player} {x : ℚ × List Player × List Player}
    (hx : x ∈ ((combinations 5 players).map (fun team1 =>
      let team2 := players.filter (fun p => p ∉ team1)
      (teamDiff team1 team2, team1, team2))).insertionSort diffLE) :
    x.1 = teamDiff x.2.1 x.2.2 := by
  rw [List.mem_insertionSort, List.mem_map] at hx
  obtain ⟨team1, _, rfl⟩ := hx
  rfl

theorem pairwise_calculate_balanced_teams (players : List Player) :
    (calculate_balanced_teams players).Pairwise
      (fun a b => teamDiff a.1 a.2 ≤ teamDiff b.1 b.2) := by
  rw [calculate_balanced_teams, List.pairwise_map]
  have hsorted := List.sorted_insertionSort diffLE
    ((combinations 5 players).map (fun team1 =>
      let team2 := players.filter (fun p => p ∉ team1)
      (teamDiff team1 team2, team1, team2)))
  refine hsorted.imp_of_mem ?_
  intro a b ha hb hab
  have ha1 := fst_eq_teamDiff_of_mem ha
  have hb1 := fst_eq_teamDiff_of_mem hb
  rw [← ha1, ← hb1]
  exact hab

theorem pairwise_get_all_captain_pairs (players : List Player) :
    (get_all_captain_pairs players).Pairwise (fun a b => a.2.2 ≤ b.2.2) :=
  List.sorted_insertionSort closeLE
    (pairsAux (players.insertionSort mmrLE) (players.insertionSort mmrLE))

/-- C2: for a 10-player roster of distinct identities, both enumerators
return lists sorted non-decreasing by fairness (resp. closeness), and the
first element attains the minimum of that value over all enumerated
alternatives. -/
theorem ranked_alternatives_sorted (players : List Player)
    (h10 : players.length = 10) (hnd : (players.map Player.id).Nodup) :
    ((calculate_balanced_teams players).Pairwise
        (fun a b => teamDiff a.1 a.2 ≤ teamDiff b.1 b.2) ∧
      ∀ hd, (calculate_balanced_teams players).head? = some hd →
        ∀ x ∈ calculate_balanced_teams players,
          teamDiff hd.1 hd.2 ≤ teamDiff x.1 x.2) ∧
    ((get_all_captain_pairs players).Pairwise (fun a b => a.2.2 ≤ b.2.2) ∧
      ∀ hd, (get_all_captain_pairs players).head? = some hd →
        ∀ x ∈ get_all_captain_pairs players, hd.2.2 ≤ x.2.2) := by
  refine ⟨⟨pairwise_calculate_balanced_teams players, ?_⟩,
    ⟨pairwise_get_all_captain_pairs players, ?_⟩⟩
  · intro hd hhd x hx
    exact pairwise_head_min (pairwise_calculate_balanced_teams players)
      (fun a => le_refl (teamDiff a.1 a.2)) hd hhd x hx
  · intro hd hhd x hx
    exact pairwise_head_min (pairwise_get_all_captain_pairs players)
      (fun a => le_refl a.2.2) hd hhd x hx

/-- Witness: the sortedness theorem applies to a concrete 10-player roster. -/
theorem ranked_alternatives_sorted_witness :
    (calculate_balanced_teams
        [mkP 0 100, mkP 1 200, mkP 2 300, mkP 3 400, mkP 4 500,
         mkP 5 600, mkP 6 700, mkP 7 800, mkP 8 900, mkP 9 1000]).Pairwise
      (fun a b => teamDiff a.1 a.2 ≤ teamDiff b.1 b.2) :=
  ((ranked_alternatives_sorted
    [mkP 0 100, mkP 1 200, mkP 2 300, mkP 3 400, mkP 4 500,
     mkP 5 600, mkP 6 700, mkP 7 800, mkP 8 900, mkP 9 1000]
    (by decide) (by decide)).1).1

/-! ### Shape of the alternatives produced by `get_all_captain_pairs` -/

theorem length_pairsAux (full : List Player) : ∀ l : List Player,
    (pairsAux full l).length = l.length.choose 2
  | [] => by simp [pairsAux]
  | x :: xs => by
    simp only [pairsAux, List.length_append, List.length_map, length_pairsAux full xs,
      List.length_cons]
    rw [Nat.choose_succ_succ]
    simp [Nat.choose_one_right, Nat.add_comm]

theorem mem_pairsAux {full : List Player} : ∀ {l : List Player} {alt : CaptainAlt},
    alt ∈ pairsAux full l →
    ∃ x y, [x, y] <+ l ∧
      alt = ((x, y), full.filter (fun p => p ∉ [x, y]), intAbs (x.mmr - y.mmr))
  | [], alt, h => by simp [pairsAux] at h
  | x :: xs, alt, h => by
    simp only [pairsAux, List.mem_append, List.mem_map] at h
    rcases h with ⟨y, hy, rfl⟩ | h
    · exact ⟨x, y, List.Sublist.cons₂ x (List.singleton_sublist.mpr hy), rfl⟩
    · obtain ⟨a, b, hsub, rfl⟩ := mem_pairsAux h
      exact ⟨a, b, hsub.cons x, rfl⟩

/-- C5: for a 10-player roster of distinct identities,
`get_all_captain_pairs` returns exactly 45 alternatives; in each one the two
captains are distinct, neither captain is in the 8-player pool, and captains
plus pool recompose the full roster; the stored closeness is the absolute
MMR difference of the two captains. -/
theorem captain_pairs_enumeration (players : List Player)
    (h10 : players.length = 10) (hnd : (players.map Player.id).Nodup) :
    (get_all_captain_pairs players).length = 45 ∧
      ∀ alt ∈ get_all_captain_pairs players,
        alt.1.1 ≠ alt.1.2 ∧
        alt.1.1 ∉ alt.2.1 ∧ alt.1.2 ∉ alt.2.1 ∧
        alt.2.1.length = 8 ∧
        ([alt.1.1, alt.1.2] ++ alt.2.1) ~ players ∧
        alt.2.2 = intAbs (alt.1.1.mmr - alt.1.2.mmr) := by
  have hndp : players.Nodup := List.Nodup.of_map Player.id hnd
  have hsp : players.insertionSort mmrLE ~ players := List.perm_insertionSort mmrLE players
  have hspnd : (players.insertionSort mmrLE).Nodup := (hsp.nodup_iff).mpr hndp
  constructor
  · simp only [get_all_captain_pairs, List.length_insertionSort, length_pairsAux,
      List.length_insertionSort, h10]
    decide
  · intro alt halt
    rw [get_all_captain_pairs, List.mem_insertionSort] at halt
    obtain ⟨x, y, hsub, rfl⟩ := mem_pairsAux halt
    have hxy : ([x, y] : List Player).Nodup := List.Nodup.sublist hsub hspnd
    have hperm0 : [x, y] ++ (players.insertionSort mmrLE).filter (fun p => p ∉ [x, y]) ~
        players.insertionSort mmrLE := sublist_append_filter_perm hsub hspnd
    have hperm : [x, y] ++ (players.insertionSort mmrLE).filter (fun p => p ∉ [x, y]) ~
        players := hperm0.trans hsp
    have hxney : x ≠ y := by
      have := (List.nodup_cons.mp hxy).1
      simp only [List.mem_singleton] at this
      exact this
    have hpoolx : x ∉ (players.insertionSort mmrLE).filter (fun p => p ∉ [x, y]) := by
      intro hx
      have := List.of_mem_filter hx
      simp at this
    have hpooly : y ∉ (players.insertionSort mmrLE).filter (fun p => p ∉ [x, y]) := by
      intro hy
      have := List.of_mem_filter hy
      simp at this
    have hpoollen : ((players.insertionSort mmrLE).filter (fun p => p ∉ [x, y])).length = 8 := by
      have := hperm.length_eq
      simp only [List.length_append, List.length_cons, List.length_nil, h10] at this
      omega
    exact ⟨hxney, hpoolx, hpooly, hpoollen, hperm, rfl⟩

/-- Witness: the captain-pair enumeration theorem applies to a concrete
10-player roster. -/
theorem captain_pairs_enumeration_witness :
    (get_all_captain_pairs
        [mkP 0 100, mkP 1 200, mkP 2 300, mkP 3 400, mkP 4 500,
         mkP 5 600, mkP 6 700, mkP 7 800, mkP 8 900, mkP 9 1000]).length = 45 :=
  (captain_pairs_enumeration
    [mkP 0 100, mkP 1 200, mkP 2 300, mkP 3 400, mkP 4 500,
     mkP 5 600, mkP 6 700, mkP 7 800, mkP 8 900, mkP 9 1000]
    (by decide) (by decide)).1



set_option maxRecDepth 2000000 in
set_option maxHeartbeats 4000000 in
/-- C8 counterexample: on the `[1000×5, 5000×5]` roster the first
alternative of `calculate_balanced_teams` is not the homogeneous split, and
its fairness is not 0. -/
theorem spec_example_best_split_refuted :
    (calculate_balanced_teams tenSplitRoster).head? ≠ some homogSplit ∧
    (calculate_balanced_teams tenSplitRoster).head?.map (fun pr => teamDiff pr.1 pr.2) ≠
      some 0 := by
  decide

set_option maxRecDepth 2000000 in
set_option maxHeartbeats 4000000 in
/-- C8 (amended): on the `[1000×5, 5000×5]` roster the first alternative of
`calculate_balanced_teams` is the mixed split `splitA` (three 1000s and two
5000s against the rest) with fairness 800, while the rating-homogeneous
split has fairness 4000, not 0. -/
theorem spec_example_best_split_amended :
    (calculate_balanced_teams tenSplitRoster).head? = some splitA ∧
    (calculate_balanced_teams tenSplitRoster).head?.map (fun pr => teamDiff pr.1 pr.2) =
      some 800 ∧
    teamDiff homogSplit.1 homogSplit.2 = 4000 := by
  decide

set_option maxRecDepth 2000000 in
set_option maxHeartbeats 8000000 in
/-- C3: on a concrete full lobby, after a generate, an ArmanBotty reroll
below the bound increments the counter and renders `ranked[rollCount - 1]`
(the second-best split), an ArmanBotty reroll at the bound resets the
counter to 1 and renders `ranked[0]` again — but the same FeederBot reroll
below the bound renders `ranked[0]`, not `ranked[1]`, so FeederBot's regular
reroll never advances through the ranked list. -/
theorem regular_reroll_feeder_vs_arman :
    (calculate_balanced_teams tenSplitRoster).get? 0 = some splitA ∧
    (calculate_balanced_teams tenSplitRoster).get? 1 = some splitB ∧
    splitA ≠ splitB ∧
    (Arman.recycle (Arman.rocket ⟨tenSplitRoster, 0, [], none⟩).1).2 =
      Shown.teams splitB 2 ∧
    (Arman.recycle
        { (Arman.rocket ⟨tenSplitRoster, 0, [], none⟩).1 with rollCount := 5 }).2 =
      Shown.teams splitA 1 ∧
    (Feeder.recycle
        (Feeder.rocket ⟨Mode.regular, tenSplitRoster, 0, [], none, none⟩).1).2 =
      Shown.teams splitA 2 ∧
    (Arman.recycle (Arman.rocket ⟨tenSplitRoster, 0, [], none⟩).1).1.rollCount = 2 ∧
    (Arman.recycle
        { (Arman.rocket ⟨tenSplitRoster, 0, [], none⟩).1 with rollCount := 5 }).1.rollCount = 1 ∧
    (Feeder.recycle
        (Feeder.rocket ⟨Mode.regular, tenSplitRoster, 0, [], none, none⟩).1).1.rollCount = 2 := by
  decide

/-- C4: FeederBot's `!add` checks fullness only once, before its loop: a
single `!add` of two fresh members to a 9-player lobby yields an 11-player
lobby, breaking the size ≤ 10 invariant, while an `!add` (or a 👍 join) on a
full 10-player lobby is correctly refused and leaves the state unchanged. -/
theorem lobby_overfill_via_multi_add :
    (Feeder.add_to_lobby
        ⟨Mode.regular,
          [mkP 1 100, mkP 2 200, mkP 3 300, mkP 4 400, mkP 5 500,
           mkP 6 600, mkP 7 700, mkP 8 800, mkP 9 900],
          0, [], none, none⟩
        [mkP 10 1000, mkP 11 1100]).lobby.length = 11 ∧
    (Feeder.add_to_lobby
        ⟨Mode.regular, tenSplitRoster, 0, [], none, none⟩ [mkP 12 1200]).lobby =
      tenSplitRoster ∧
    (Feeder.thumbsUp
        ⟨Mode.regular, tenSplitRoster, 0, [], none, none⟩ (mkP 12 1200)).lobby =
      tenSplitRoster := by
  decide

/-! ### Characterisation of the reroll branches -/

theorem feeder_recycle_regular (s : Feeder.FState) (hm : s.mode = Mode.regular)
    (h10 : s.lobby.length = 10) :
    Feeder.recycle s =
      ({ s with
          rollCount := if s.rollCount ≥ MAX_ROLLS then 1 else s.rollCount + 1,
          teamRolls := calculate_balanced_teams s.lobby,
          originalTeams := (calculate_balanced_teams s.lobby).head? },
        match (calculate_balanced_teams s.lobby).head? with
        | some t => Shown.teams t (if s.rollCount ≥ MAX_ROLLS then 1 else s.rollCount + 1)
        | none => Shown.noEmbed) := by
  obtain ⟨mode, lobby, rc, tr, ot, dr⟩ := s
  simp only at hm h10
  subst hm
  simp [Feeder.recycle, h10]

theorem feeder_recycle_immortal (s : Feeder.FState) (d : DraftState)
    (hm : s.mode = Mode.immortal) (h10 : s.lobby.length = 10) (hd : s.draft = some d) :
    Feeder.recycle s =
      ({ s with draft := some ⟨d.pairs, (d.index + 1) % (IMMORTAL_MAX_ROLLS + 1)⟩ },
        match d.pairs.get? ((d.index + 1) % (IMMORTAL_MAX_ROLLS + 1)) with
        | some alt => Shown.draftPair alt.1 alt.2.1 ((d.index + 1) % (IMMORTAL_MAX_ROLLS + 1))
        | none => Shown.noEmbed) := by
  obtain ⟨mode, lobby, rc, tr, ot, dr⟩ := s
  simp only at hm h10 hd
  subst hm
  subst hd
  simp [Feeder.recycle, h10]

theorem arman_recycle_cached (s : Arman.AState) (h10 : s.lobby.length = 10)
    (hne : s.teamRolls ≠ []) (hlow : s.rollCount < MAX_ROLLS) :
    Arman.recycle s =
      ({ s with rollCount := s.rollCount + 1 },
        match s.teamRolls.get? s.rollCount with
        | some t => Shown.teams t (s.rollCount + 1)
        | none => Shown.noEmbed) := by
  obtain ⟨lobby, rc, tr, ot⟩ := s
  simp only at h10 hne hlow
  have hge : ¬ rc ≥ MAX_ROLLS := by omega
  simp [Arman.recycle, h10, hne, hge]

/-- C6 (amended): a FeederBot regular-mode reroll regenerates the ranked
list from the current roster; a FeederBot immortal-mode reroll with an
existing draft state reuses the cached pair list unconditionally (whatever
roster it was computed from), as does an ArmanBotty reroll with its cached
`team_rolls`; a reroll while the roster is off-size is a no-op. No handler
invalidates the cache on roster mutation. -/
theorem reroll_cache_policy :
    (∀ s : Feeder.FState, s.mode = Mode.regular → s.lobby.length = 10 →
      (Feeder.recycle s).2 =
        match (calculate_balanced_teams s.lobby).head? with
        | some t => Shown.teams t (if s.rollCount ≥ MAX_ROLLS then 1 else s.rollCount + 1)
        | none => Shown.noEmbed) ∧
    (∀ (s : Feeder.FState) (d : DraftState), s.mode = Mode.immortal →
      s.lobby.length = 10 → s.draft = some d →
      (Feeder.recycle s).2 =
        match d.pairs.get? ((d.index + 1) % (IMMORTAL_MAX_ROLLS + 1)) with
        | some alt =>
            Shown.draftPair alt.1 alt.2.1 ((d.index + 1) % (IMMORTAL_MAX_ROLLS + 1))
        | none => Shown.noEmbed) ∧
    (∀ s : Arman.AState, s.lobby.length = 10 → s.teamRolls ≠ [] →
      s.rollCount < MAX_ROLLS →
      (Arman.recycle s).2 =
        match s.teamRolls.get? s.rollCount with
        | some t => Shown.teams t (s.rollCount + 1)
        | none => Shown.noEmbed) ∧
    (∀ s : Feeder.FState, s.lobby.length ≠ 10 →
      Feeder.recycle s = (s, Shown.noEmbed)) := by
  refine ⟨?_, ?_, ?_, ?_⟩
  · intro s hm h10
    rw [feeder_recycle_regular s hm h10]
  · intro s d hm h10 hd
    rw [feeder_recycle_immortal s d hm h10 hd]
  · intro s h10 hne hlow
    rw [arman_recycle_cached s h10 hne hlow]
  · intro s h10
    obtain ⟨mode, lobby, rc, tr, ot, dr⟩ := s
    simp only at h10
    simp [Feeder.recycle, h10]

set_option maxRecDepth 2000000 in
set_option maxHeartbeats 4000000 in
/-- Witness: the cache-policy theorem applies to a concrete regular-mode
state. -/
theorem reroll_cache_policy_witness :
    (Feeder.recycle ⟨Mode.regular, tenSplitRoster, 1, [], none, none⟩).2 =
      match (calculate_balanced_teams tenSplitRoster).head? with
      | some t => Shown.teams t 2
      | none => Shown.noEmbed :=
  reroll_cache_policy.1 ⟨Mode.regular, tenSplitRoster, 1, [], none, none⟩ rfl (by decide)


set_option maxRecDepth 2000000 in
set_option maxHeartbeats 4000000 in
/-- C6 counterexample: generate a captain draft on `draftRosterA`, let
player 9 leave and player 10 join (the roster is back to 10 members), then
reroll: the handler renders an alternative from the cached pre-mutation
enumeration — one that is not among the alternatives of the current roster,
since the departed player 9 is still in its pool. -/
theorem immortal_reroll_stale_after_mutation :
    (Feeder.thumbsUp
        (Feeder.thumbsDown
          (Feeder.rocket ⟨Mode.immortal, draftRosterA, 0, [], none, none⟩).1 9)
        (mkP 10 1100)).lobby.length = 10 ∧
    (Feeder.recycle
        (Feeder.thumbsUp
          (Feeder.thumbsDown
            (Feeder.rocket ⟨Mode.immortal, draftRosterA, 0, [], none, none⟩).1 9)
          (mkP 10 1100))).2 =
      Shown.draftPair staleAlt.1 staleAlt.2.1 1 ∧
    staleAlt ∈ get_all_captain_pairs draftRosterA ∧
    staleAlt ∉ get_all_captain_pairs
      (Feeder.thumbsUp
        (Feeder.thumbsDown
          (Feeder.rocket ⟨Mode.immortal, draftRosterA, 0, [], none, none⟩).1 9)
        (mkP 10 1100)).lobby := by
  decide


theorem recycleIter_immortal_invariant (s : Feeder.FState) (pairs : List CaptainAlt)
    (hm : s.mode = Mode.immortal) (h10 : s.lobby.length = 10)
    (hd : s.draft = some ⟨pairs, 0⟩) :
    ∀ k, (Feeder.recycleIter s k).mode = Mode.immortal ∧
      (Feeder.recycleIter s k).lobby = s.lobby ∧
      (Feeder.recycleIter s k).draft = some ⟨pairs, k % (IMMORTAL_MAX_ROLLS + 1)⟩ := by
  intro k
  induction k with
  | zero => exact ⟨hm, rfl, by simpa using hd⟩
  | succ k ih =>
    obtain ⟨ihm, ihl, ihd⟩ := ih
    have ih10 : (Feeder.recycleIter s k).lobby.length = 10 := by rw [ihl]; exact h10
    have hstep := feeder_recycle_immortal (Feeder.recycleIter s k)
      ⟨pairs, k % (IMMORTAL_MAX_ROLLS + 1)⟩ ihm ih10 ihd
    have hmod : (k % (IMMORTAL_MAX_ROLLS + 1) + 1) % (IMMORTAL_MAX_ROLLS + 1) =
        (k + 1) % (IMMORTAL_MAX_ROLLS + 1) := by
      simp only [IMMORTAL_MAX_ROLLS]
      omega
    refine ⟨?_, ?_, ?_⟩
    · show (Feeder.recycle (Feeder.recycleIter s k)).1.mode = Mode.immortal
      rw [hstep]
      exact ihm
    · show (Feeder.recycle (Feeder.recycleIter s k)).1.lobby = s.lobby
      rw [hstep]
      exact ihl
    · show (Feeder.recycle (Feeder.recycleIter s k)).1.draft = _
      rw [hstep]
      simp [hmod]

/-- C7: in captain-draft mode with a freshly generated draft state, every
reroll advances the cached cursor by `index := (index + 1) %
(IMMORTAL_MAX_ROLLS + 1)`; the index therefore always stays in
`[0, IMMORTAL_MAX_ROLLS]`, after `IMMORTAL_MAX_ROLLS + 1` rerolls the
cursor is back at the top-ranked pairing (which that reroll renders), and
every rendered pairing is one of the first `IMMORTAL_MAX_ROLLS + 1` entries
of the cached ranked list. -/
theorem immortal_reroll_modular_wrap (s : Feeder.FState) (pairs : List CaptainAlt)
    (hm : s.mode = Mode.immortal) (h10 : s.lobby.length = 10)
    (hd : s.draft = some ⟨pairs, 0⟩) :
    (∀ k d, (Feeder.recycleIter s k).draft = some d →
      (Feeder.recycle (Feeder.recycleIter s k)).1.draft =
        some ⟨d.pairs, (d.index + 1) % (IMMORTAL_MAX_ROLLS + 1)⟩) ∧
    (∀ k d, (Feeder.recycleIter s k).draft = some d → d.index ≤ IMMORTAL_MAX_ROLLS) ∧
    (Feeder.recycleIter s (IMMORTAL_MAX_ROLLS + 1)).draft = some ⟨pairs, 0⟩ ∧
    (∀ k c p i, (Feeder.recycle (Feeder.recycleIter s k)).2 = Shown.draftPair c p i →
      i ≤ IMMORTAL_MAX_ROLLS ∧ ∃ alt, pairs.get? i = some alt ∧ alt.1 = c ∧ alt.2.1 = p) ∧
    (∀ alt, pairs.get? 0 = some alt →
      (Feeder.recycle (Feeder.recycleIter s IMMORTAL_MAX_ROLLS)).2 =
        Shown.draftPair alt.1 alt.2.1 0) := by
  have hinv := recycleIter_immortal_invariant s pairs hm h10 hd
  have hstep : ∀ k, Feeder.recycle (Feeder.recycleIter s k) =
      ({ Feeder.recycleIter s k with
          draft := some ⟨pairs, (k % (IMMORTAL_MAX_ROLLS + 1) + 1) % (IMMORTAL_MAX_ROLLS + 1)⟩ },
        match pairs.get? ((k % (IMMORTAL_MAX_ROLLS + 1) + 1) % (IMMORTAL_MAX_ROLLS + 1)) with
        | some alt =>
            Shown.draftPair alt.1 alt.2.1 ((k % (IMMORTAL_MAX_ROLLS + 1) + 1) % (IMMORTAL_MAX_ROLLS + 1))
        | none => Shown.noEmbed) := by
    intro k
    obtain ⟨ihm, ihl, ihd⟩ := hinv k
    have ih10 : (Feeder.recycleIter s k).lobby.length = 10 := by rw [ihl]; exact h10
    exact feeder_recycle_immortal (Feeder.recycleIter s k)
      ⟨pairs, k % (IMMORTAL_MAX_ROLLS + 1)⟩ ihm ih10 ihd
  refine ⟨?_, ?_, ?_, ?_, ?_⟩
  · intro k d hdk
    have := (hinv k).2.2
    rw [hdk] at this
    have hd2 : d = ⟨pairs, k % (IMMORTAL_MAX_ROLLS + 1)⟩ := Option.some_injective _ this
    subst hd2
    have hst := hstep k
    rw [hst]
  · intro k d hdk
    have := (hinv k).2.2
    rw [hdk] at this
    have hd2 : d = ⟨pairs, k % (IMMORTAL_MAX_ROLLS + 1)⟩ := by
      exact Option.some_injective _ this
    rw [hd2]
    simp only [IMMORTAL_MAX_ROLLS]
    omega
  · have := (hinv (IMMORTAL_MAX_ROLLS + 1)).2.2
    simpa [IMMORTAL_MAX_ROLLS] using this
  · intro k c p i hshow
    have hst := hstep k
    rw [hst] at hshow
    simp only at hshow
    rcases hget : pairs.get? ((k % (IMMORTAL_MAX_ROLLS + 1) + 1) % (IMMORTAL_MAX_ROLLS + 1)) with
      _ | alt
    · rw [hget] at hshow
      simp at hshow
    · rw [hget] at hshow
      simp only [Shown.draftPair.injEq] at hshow
      obtain ⟨hc, hp, hi⟩ := hshow
      refine ⟨?_, alt, ?_, hc, hp⟩
      · rw [← hi]
        simp only [IMMORTAL_MAX_ROLLS]
        omega
      · rw [← hi]
        exact hget
  · intro alt halt
    have hst := hstep IMMORTAL_MAX_ROLLS
    rw [hst]
    have hmod : (IMMORTAL_MAX_ROLLS % (IMMORTAL_MAX_ROLLS + 1) + 1) % (IMMORTAL_MAX_ROLLS + 1) = 0 := by
      simp [IMMORTAL_MAX_ROLLS]
    rw [hmod] at hst ⊢
    rw [halt]

/-- Witness: the modular-wrap theorem applies to a concrete immortal-mode
state. -/
theorem immortal_reroll_modular_wrap_witness :
    (Feeder.recycleIter
        ⟨Mode.immortal, tenSplitRoster, 0, [], none, some ⟨[], 0⟩⟩
        (IMMORTAL_MAX_ROLLS + 1)).draft = some ⟨[], 0⟩ :=
  (immortal_reroll_modular_wrap
    ⟨Mode.immortal, tenSplitRoster, 0, [], none, some ⟨[], 0⟩⟩ []
    rfl (by decide) rfl).2.2.1

/-! ### Idempotence of generate -/

/-- C9: the 🚀 generate handler is a pure function of the roster snapshot:
it leaves the roster (and mode) unchanged, and running it again on the
resulting state reproduces exactly the same state and the same rendered top
alternative. -/
theorem generate_idempotent (s : Feeder.FState) (h10 : s.lobby.length = 10) :
    (Feeder.rocket s).1.lobby = s.lobby ∧
    (Feeder.rocket s).1.mode = s.mode ∧
    Feeder.rocket (Feeder.rocket s).1 = Feeder.rocket s := by
  obtain ⟨mode, lobby, rc, tr, ot, dr⟩ := s
  simp only at h10
  cases mode with
  | regular => simp [Feeder.rocket, h10]
  | immortal => simp [Feeder.rocket, h10]

/-- Witness: generate on a concrete full lobby keeps the roster unchanged. -/
theorem generate_idempotent_witness :
    (Feeder.rocket ⟨Mode.regular, tenSplitRoster, 0, [], none, none⟩).1.lobby =
      tenSplitRoster :=
  (generate_idempotent ⟨Mode.regular, tenSplitRoster, 0, [], none, none⟩ (by decide)).1


/-- C10: `get_balance` takes a single `user_id` parameter but FeederBot's
`!bet` and `!balance` commands call it with two arguments
`(guild_id, user_id)`: every such invocation raises `TypeError`, so the
`!balance` command never returns a balance, and the `!bet` command never
reaches `place_bet` — it either stops at one of its early refusals or
raises, and in every case the wallet and bet stores are unchanged. -/
theorem balance_lookup_always_type_errors :
    (∀ (w : Nat → Option Int) (g u : Nat),
      Betting.callGetBalance w [g, u] = Except.error Betting.PyErr.typeError) ∧
    (∀ (w : Nat → Option Int) (g u : Nat),
      Betting.balance_command w g u = Except.error Betting.PyErr.typeError) ∧
    (∀ (w : Nat → Option Int) (b : Nat → Option Betting.BetEntry)
        (g u : Nat) (amt : Int) (team : String),
      (Betting.bet_command w b g u amt team).2.1 = w ∧
      (Betting.bet_command w b g u amt team).2.2 = b ∧
      ((Betting.bet_command w b g u amt team).1 = Betting.BetOutcome.invalidTeam ∨
       (Betting.bet_command w b g u amt team).1 = Betting.BetOutcome.invalidAmount ∨
       (Betting.bet_command w b g u amt team).1 = Betting.BetOutcome.teamChangeRefused ∨
       (Betting.bet_command w b g u amt team).1 = Betting.BetOutcome.notIncreaseRefused ∨
       (Betting.bet_command w b g u amt team).1 =
         Betting.BetOutcome.raised Betting.PyErr.typeError)) := by
  refine ⟨fun w g u => rfl, fun w g u => rfl, ?_⟩
  intro w b g u amt team
  simp only [Betting.bet_command]
  by_cases h1 : team.toLower ≠ "radiant" ∧ team.toLower ≠ "dire"
  · rw [if_pos h1]
    exact ⟨rfl, rfl, Or.inl rfl⟩
  · rw [if_neg h1]
    by_cases h2 : amt ≤ 0
    · rw [if_pos h2]
      exact ⟨rfl, rfl, Or.inr (Or.inl rfl)⟩
    · rw [if_neg h2]
      rcases hb : b u with _ | prev
      · exact ⟨rfl, rfl, Or.inr (Or.inr (Or.inr (Or.inr rfl)))⟩
      · dsimp only
        by_cases h3 : team.toLower ≠ prev.team
        · rw [if_pos h3]
          exact ⟨rfl, rfl, Or.inr (Or.inr (Or.inl rfl))⟩
        · rw [if_neg h3]
          by_cases h4 : amt ≤ prev.amount
          · rw [if_pos h4]
            exact ⟨rfl, rfl, Or.inr (Or.inr (Or.inr (Or.inl rfl)))⟩
          · rw [if_neg h4]
            exact ⟨rfl, rfl, Or.inr (Or.inr (Or.inr (Or.inr rfl)))⟩

end Inhouse
